import Mathlib

/-!
Verification of the fetch/merge/visualize pipeline
(`s01_fetch_data.py`, `s02_visualize.py`).

The Python code is shallowly embedded: Python `str` values are modelled as
Lean `String` / `List Char`, Python floats as `ℚ` (exact rationals; the
claims under scrutiny concern thresholds, formatting structure and
round-trips, none of which hinge on binary-float artifacts), absent values
(`None` / `NaN`) as `Option`, raising code as `Except`, and the pandas long
table as a `List` of row structures.  External effects (network fetches,
the rendered page, the term-conversion file, the ticker config) are passed
in as explicit parameters, mirroring exactly what the Python code reads
from them.
-/

namespace M7

/-! ## Python string primitives (str.strip, str.split, str.startswith, float) -/

/-- Model of Python `str.strip()`: drop whitespace from both ends. -/
def pyStrip (cs : List Char) : List Char :=
  ((cs.dropWhile Char.isWhitespace).reverse.dropWhile Char.isWhitespace).reverse

/-- Model of Python `str.split()` with no argument: maximal runs of
non-whitespace characters (empty runs discarded). -/
def pyWords (cs : List Char) : List (List Char) :=
  (cs.foldr
    (fun c acc =>
      if c.isWhitespace then [] :: acc
      else
        match acc with
        | [] => [[c]]
        | w :: ws => (c :: w) :: ws)
    []).filter (fun w => !w.isEmpty)

/-- Model of Python `str.split(sep)` for a single separator character:
splits at every occurrence, keeping empty pieces (`"a\n\nb"` gives three
pieces), as `page_text.split('\n')` does. -/
def pySplitOn (sep : Char) : List Char → List (List Char)
  | [] => [[]]
  | c :: cs =>
    if c = sep then [] :: pySplitOn sep cs
    else
      match pySplitOn sep cs with
      | [] => [[c]]
      | w :: ws => (c :: w) :: ws

/-- Does `p` occur literally at the front of `cs`?  Model of
`str.startswith(p)`. -/
def startsWithL : List Char → List Char → Bool
  | [], _ => true
  | _ :: _, [] => false
  | p :: ps, c :: cs => p == c && startsWithL ps cs

/-- Numeric value of a decimal digit character. -/
def dval (c : Char) : ℕ := c.toNat - 48

/-- The decimal digit character for `d < 10`. -/
def digitCh (d : ℕ) : Char := Char.ofNat (48 + d)

/-- Value of a string of decimal digits, most significant first. -/
def digitsVal (cs : List Char) : ℕ := cs.foldl (fun a c => 10 * a + dval c) 0

/-- Decimal digits of a natural number, most significant first, written
with explicit fuel so that it reduces by structural recursion (the fuel
`n + 1` always suffices since a number has at most `n + 1` digits). -/
def natDigitsAux : ℕ → ℕ → List Char
  | 0, _ => []
  | fuel + 1, n =>
    if n < 10 then [digitCh n]
    else natDigitsAux fuel (n / 10) ++ [digitCh (n % 10)]

/-- Decimal digits of a natural number, most significant first. -/
def natDigits (n : ℕ) : List Char := natDigitsAux (n + 1) n

/-- Model of the fragment of Python `float(str)` that the pipeline's own
output exercises: optional surrounding whitespace, an optional sign, then
decimal digits with at most one decimal point (at least one digit overall).
Returns `none` where `float` would raise `ValueError`. -/
def parseUnsigned (cs : List Char) : Option ℚ :=
  match cs.dropWhile Char.isDigit with
  | [] =>
    if (cs.takeWhile Char.isDigit).isEmpty then none
    else some (digitsVal (cs.takeWhile Char.isDigit))
  | '.' :: frac =>
    if frac.all Char.isDigit && !((cs.takeWhile Char.isDigit).isEmpty && frac.isEmpty) then
      some ((digitsVal (cs.takeWhile Char.isDigit) : ℚ)
        + (digitsVal frac : ℚ) / 10 ^ frac.length)
    else none
  | _ => none

/-- Model of Python `float(...)` on a string (see `parseUnsigned`):
surrounding whitespace is ignored and one leading sign is allowed. -/
def pyFloatL (cs : List Char) : Option ℚ :=
  match pyStrip cs with
  | [] => Option.none
  | c :: rest =>
    if c = '-' then (parseUnsigned rest).map (fun q => -q)
    else if c = '+' then parseUnsigned rest
    else parseUnsigned (c :: rest)

/-- Model of Python `round(x, 2)` on exact rationals (round half towards
positive infinity; Python rounds binary floats half to even, which differs
only on exact two-decimal ties, never produced by the data under study). -/
def pyRound2 (q : ℚ) : ℚ := ((round (q * 100) : ℤ) : ℚ) / 100

/-- The two fractional digits of `f"{x:.2f}"`, given `r = |round(x*100)| % 100`. -/
def twoDig (r : ℕ) : List Char := [digitCh (r / 10 % 10), digitCh (r % 10)]

/-- Model of the Python f-string `f"{x:.2f}"`: sign, integer digits, a
point, exactly two fractional digits. -/
def fmt2 (q : ℚ) : List Char :=
  let n : ℤ := round (q * 100)
  let a : ℕ := n.natAbs
  (if n < 0 then ['-'] else []) ++ natDigits (a / 100) ++ '.' :: twoDig (a % 100)

end M7

namespace Src

/-! ## `s01_fetch_data.py` -/

/-- A Python value as it can reach `format_large_number` (which is typed
`Optional[float]` but defensively handles anything): `None`, a float `NaN`,
a finite float, or a non-float (stringly) value. -/
inductive PyVal where
  | none
  | nan
  | num (q : ℚ)
  | str (s : String)
deriving DecidableEq

/-- Coerce the pipeline's own optional numbers into `PyVal` (`none`
standing for Python `None`). -/
def pyOfOpt : Option ℚ → PyVal
  | Option.none => PyVal.none
  | Option.some q => PyVal.num q

/-- Embedding of `format_large_number` (s01_fetch_data.py lines 192-210):
`None`/`NaN` give `"N/A"`; otherwise `float(num)` is attempted, and on
`ValueError`/`TypeError` the fallback is `str(num)`; finite numbers are
formatted with a magnitude suffix by threshold. -/
def format_large_number (v : PyVal) : List Char :=
  match v with
  | .none => "N/A".toList
  | .nan => "N/A".toList
  | .num q => formatThresh q
  | .str s =>
    match M7.pyFloatL s.toList with
    | Option.some q => formatThresh q
    | Option.none => s.toList
where
  /-- The body of the `try` block: the threshold/suffix cascade. -/
  formatThresh (q : ℚ) : List Char :=
    if q ≥ 10 ^ 12 then M7.fmt2 (q / 10 ^ 12) ++ ['T']
    else if q ≥ 10 ^ 9 then M7.fmt2 (q / 10 ^ 9) ++ ['B']
    else if q ≥ 10 ^ 6 then M7.fmt2 (q / 10 ^ 6) ++ ['M']
    else M7.fmt2 q

/-- The fixed field list of `fetch_yahoo_finance_data`: displayed measure
name paired with the `info` property-bag key it is read from, in source
order. -/
def yahooFields : List (String × String) :=
  [("Market Cap", "marketCap"),
   ("Enterprise Value", "enterpriseValue"),
   ("Trailing P/E", "trailingPE"),
   ("Forward P/E", "forwardPE"),
   ("PEG Ratio (5yr expected)", "trailingPegRatio"),
   ("Price/Sales (ttm)", "priceToSalesTrailing12Months"),
   ("Price/Book (mrq)", "priceToBook"),
   ("Enterprise Value/Revenue", "enterpriseToRevenue"),
   ("Enterprise Value/EBITDA", "enterpriseToEbitda")]

/-- Embedding of `fetch_yahoo_finance_data` (lines 78-103).  The external
retrieval is the argument: either an exception message or the `info`
property bag (a key-to-optional-value map, `info.get` being function
application).  On any exception the function returns `None`; otherwise a
dict mapping each measure name to `info.get(key)`, in insertion order. -/
def fetch_yahoo_finance_data (retrieval : Except String (String → Option ℚ)) :
    Option (List (String × Option ℚ)) :=
  match retrieval with
  | .error _ => Option.none
  | .ok info => Option.some (yahooFields.map (fun p => (p.1, info p.2)))

/-- The five StockAnalysis measures, initialised to `None` (lines 131-137),
in insertion order. -/
def saInit : List (String × Option ℚ) :=
  [("PE Ratio", Option.none),
   ("Forward PE", Option.none),
   ("PS Ratio", Option.none),
   ("PB Ratio", Option.none),
   ("PEG Ratio", Option.none)]

/-- The five StockAnalysis label names, in `saInit` order. -/
def saLabels : List String := saInit.map Prod.fst

/-- Assignment `measures[k] = v` on the fixed-key dict: rewrite the entry
whose key is `k` (all keys are distinct and present throughout). -/
def setKey (m : List (String × Option ℚ)) (k : String) (v : ℚ) :
    List (String × Option ℚ) :=
  m.map (fun p => if p.1 = k then (p.1, Option.some v) else p)

/-- Dict read `measures[k]` over the fixed-key map. -/
def lookupM (m : List (String × Option ℚ)) (k : String) : Option ℚ :=
  match m.find? (fun p => p.1 == k) with
  | Option.some p => p.2
  | Option.none => Option.none

/-- The test guarding each branch of the line scanner (lines 153, 157,
161, 165, 169): the stripped line starts with the label followed by a
space, and the whitespace-split has exactly three parts. -/
def lineCond (lab : String) (ls : List Char) (parts : List (List Char)) : Bool :=
  M7.startsWithL (lab.toList ++ [' ']) ls && parts.length == 3

/-- One iteration of the `for line in lines` loop (lines 145-173): strip,
split, and run the `if/elif` chain inside `try`; a `float` failure on the
matched branch raises `ValueError`, which the `except` turns into
`continue`, leaving the dict unchanged. -/
def scanLine (m : List (String × Option ℚ)) (line : List Char) :
    List (String × Option ℚ) :=
  let ls := M7.pyStrip line
  let parts := M7.pyWords ls
  if lineCond "PE Ratio" ls parts then trySet m "PE Ratio" (parts.getD 2 [])
  else if lineCond "Forward PE" ls parts then trySet m "Forward PE" (parts.getD 2 [])
  else if lineCond "PS Ratio" ls parts then trySet m "PS Ratio" (parts.getD 2 [])
  else if lineCond "PB Ratio" ls parts then trySet m "PB Ratio" (parts.getD 2 [])
  else if lineCond "PEG Ratio" ls parts then trySet m "PEG Ratio" (parts.getD 2 [])
  else m
where
  /-- `measures[k] = float(tok)`, with `ValueError` caught by the loop's
  `except`, i.e. no update. -/
  trySet (m : List (String × Option ℚ)) (k : String) (tok : List Char) :
      List (String × Option ℚ) :=
    match M7.pyFloatL tok with
    | Option.some v => setKey m k v
    | Option.none => m

/-- Embedding of `fetch_stockanalysis_data` (lines 106-189).  The external
page render is the argument: an exception message (page load failure,
rendering problem) or the visible body text.  On success the text is split
on newlines and scanned; on any exception the fixed all-`None` record is
returned — never `None` itself. -/
def fetch_stockanalysis_data (render : Except String String) :
    Option (List (String × Option ℚ)) :=
  match render with
  | .error _ => Option.some saInit
  | .ok pageText =>
    Option.some ((M7.pySplitOn '\n' pageText.toList).foldl scanLine saInit)

/-! ### `crawl_magnificent7` (lines 213-377) -/

/-- One row of the persisted long table `valuation_measures_full.csv`.
`Fetch_Date` is modelled as a natural number: the `%Y-%m-%d` strings the
code writes compare lexicographically exactly as the dates compare, and
only equality and maximum are used. -/
structure TidyRow where
  Fetch_Date : ℕ
  Data_Source : String
  Ticker : String
  Measure : String
  Value_Raw : Option ℚ
  Value_Formatted : List Char
deriving DecidableEq

/-- The two per-source name maps loaded by `load_term_conversion_table`
(`dict.get` is function application returning `Option`). -/
structure TermMaps where
  yahoo : String → Option String
  sa : String → Option String

/-- The external world a run observes: per ticker, the Yahoo retrieval
outcome and the StockAnalysis page render outcome. -/
structure FetchEnv where
  yahoo : String → Except String (String → Option ℚ)
  sa : String → Except String String

/-- The row built for one Yahoo measure (lines 281-292).  The magnitude
formatter is chosen by testing the RAW measure name, and term
consolidation falls back to the raw name. -/
def yahooRow (tm : TermMaps) (d : ℕ) (t : String) (p : String × Option ℚ) :
    TidyRow :=
  { Fetch_Date := d
    Data_Source := "yahoo_finance"
    Ticker := t
    Measure := (tm.yahoo p.1).getD p.1
    Value_Raw := p.2
    Value_Formatted :=
      if p.1 = "Market Cap" ∨ p.1 = "Enterprise Value" then
        format_large_number (pyOfOpt p.2)
      else plain2 p.2 }
where
  /-- `f"{value:.2f}" if value is not None and not pd.isna(value) else "N/A"`. -/
  plain2 : Option ℚ → List Char
    | Option.some q => M7.fmt2 q
    | Option.none => "N/A".toList

/-- The row built for one StockAnalysis measure (lines 304-315).  Here the
magnitude formatter is chosen by testing the CONSOLIDATED name. -/
def saRow (tm : TermMaps) (d : ℕ) (t : String) (p : String × Option ℚ) :
    TidyRow :=
  let consolidated := (tm.sa p.1).getD p.1
  { Fetch_Date := d
    Data_Source := "stockanalysis"
    Ticker := t
    Measure := consolidated
    Value_Raw := p.2
    Value_Formatted :=
      if consolidated = "Market Cap" ∨ consolidated = "Enterprise Value" then
        format_large_number (pyOfOpt p.2)
      else yahooRow.plain2 p.2 }

/-- The rows `all_data` gains for one processed ticker (lines 273-323):
Yahoo rows when that fetch returned a dict, then StockAnalysis rows (the
`is None` guard on the latter, line 300, mirrored here, is dead code since
`fetch_stockanalysis_data` never returns `None`). -/
def tickerRows (env : FetchEnv) (tm : TermMaps) (d : ℕ) (t : String) :
    List TidyRow :=
  (match fetch_yahoo_finance_data (env.yahoo t) with
   | Option.none => []
   | Option.some ms => ms.map (yahooRow tm d t))
  ++ (match fetch_stockanalysis_data (env.sa t) with
      | Option.none => []
      | Option.some ms => ms.map (saRow tm d t))

/-- The distinct `Data_Source` values is not computed here: this is the
raw column, `today_data.groupby('Ticker')['Data_Source']` restricted to
one ticker (lines 245-248). -/
def todaySources (table : List TidyRow) (d : ℕ) (t : String) : List String :=
  (table.filter (fun r => r.Fetch_Date == d && r.Ticker == t)).map
    (fun r => r.Data_Source)

/-- `ticker_counts[ticker] == 2` (line 249): the ticker has exactly two
distinct `Data_Source` values among today's rows (`nunique`, modelled by
`dedup.length`); a ticker with no rows today has count `0`. -/
def fullyFetched (table : List TidyRow) (d : ℕ) (t : String) : Bool :=
  (todaySources table d t).dedup.length == 2

/-- `tickers_to_fetch` (line 255): configured tickers not already covered
today. -/
def tickersToFetch (table : List TidyRow) (d : ℕ) (tickers : List String) :
    List String :=
  tickers.filter (fun t => !fullyFetched table d t)

/-- `full_df['Fetch_Date'].max()` (line 360). -/
def latestDate (full : List TidyRow) : ℕ :=
  (full.map (fun r => r.Fetch_Date)).foldl Nat.max 0

/-- `full_df[full_df['Fetch_Date'] == latest_date]` (line 361). -/
def latestRows (full : List TidyRow) : List TidyRow :=
  full.filter (fun r => r.Fetch_Date == latestDate full)

/-- What one invocation leaves behind: the persisted long table, and the
wide table write if one happened (`none` when the run returned early
writing nothing): the `Fetch_Date` value inserted as first column and the
row slice the pivot is built from. -/
structure CrawlResult where
  full : List TidyRow
  wide : Option (ℕ × List TidyRow)
deriving DecidableEq

/-- Embedding of `crawl_magnificent7` (lines 213-377).  Inputs: the
external fetch outcomes, the loaded term maps, the configured tickers, the
existing persisted long table (empty when the file is absent), and today's
date.  The early `return`s (lines 257-260 and 331-333) leave the table
untouched and write nothing. -/
def crawl_magnificent7 (env : FetchEnv) (tm : TermMaps) (tickers : List String)
    (table : List TidyRow) (d : ℕ) : CrawlResult :=
  let toFetch := tickersToFetch table d tickers
  if toFetch.isEmpty then { full := table, wide := Option.none }
  else
    let allData := (toFetch.map (tickerRows env tm d)).flatten
    if allData.isEmpty then { full := table, wide := Option.none }
    else
      let full := table ++ allData
      { full := full, wide := Option.some (latestDate full, latestRows full) }

/-! ### The wide pivot (lines 364-369), as functions of the latest slice -/

/-- One pivot cell: `aggfunc='first'` keeps the first row of the slice
with the given index pair and column; a pair/column combination with no
underlying row is an empty (NaN) cell, `none`. -/
def wideCell (rows : List TidyRow) (t s m : String) : Option (List Char) :=
  (rows.find? (fun r => r.Ticker == t && r.Data_Source == s && r.Measure == m)).map
    (fun r => r.Value_Formatted)

/-- The pivot's index: the distinct `(Ticker, Data_Source)` pairs of the
slice, one output row each. -/
def widePairs (rows : List TidyRow) : List (String × String) :=
  (rows.map (fun r => (r.Ticker, r.Data_Source))).dedup

/-- The pivot's columns: the distinct `Measure` values of the slice. -/
def wideCols (rows : List TidyRow) : List String :=
  (rows.map (fun r => r.Measure)).dedup

/-! ## `s02_visualize.py` -/

/-- The suffix dispatch of `parse_value` on the stripped cell text:
`val.endswith('T')` is a check on the last character, `val[:-1]` is
`dropLast`, and the multiplier matches the suffix.  `.error` marks the
paths where Python raises (`float` applied to a bad mantissa in the
`T`/`B`/`M` branches is outside any `try`). -/
def parse_value_core (v : List Char) : Except Unit (Option ℚ) :=
  if v.getLast? = Option.some 'T' then
    match M7.pyFloatL v.dropLast with
    | Option.some q => Except.ok (Option.some (q * 10 ^ 12))
    | Option.none => Except.error ()
  else if v.getLast? = Option.some 'B' then
    match M7.pyFloatL v.dropLast with
    | Option.some q => Except.ok (Option.some (q * 10 ^ 9))
    | Option.none => Except.error ()
  else if v.getLast? = Option.some 'M' then
    match M7.pyFloatL v.dropLast with
    | Option.some q => Except.ok (Option.some (q * 10 ^ 6))
    | Option.none => Except.error ()
  else
    match M7.pyFloatL v with
    | Option.some q => Except.ok (Option.some q)
    | Option.none => Except.ok Option.none

/-- Embedding of `parse_value` (s02_visualize.py lines 20-36) on a string
cell: the literal `'N/A'` is `np.nan` (`.ok none`); otherwise the cell is
stripped and dispatched on its magnitude suffix. -/
def parse_value (val : String) : Except Unit (Option ℚ) :=
  if val = "N/A" then Except.ok Option.none
  else parse_value_core (M7.pyStrip val.toList)

/-! ## Definitions stated from the spec's words (refinement targets), and
concrete scenarios used by witnesses and counterexamples -/

/-- Stated from the spec's words (s01 4.2): a line matches a label when,
after stripping and whitespace-splitting, it has exactly three tokens, the
first two reconstruct the label exactly, and the third parses as a
floating-point number.  To be compared with the code's `lineCond`. -/
def specLineMatch (lab : String) (line : List Char) : Prop :=
  (M7.pyWords (M7.pyStrip line)).length = 3 ∧
  (M7.pyWords (M7.pyStrip line)).getD 0 [] ++ ' ' :: (M7.pyWords (M7.pyStrip line)).getD 1 []
    = lab.toList ∧
  ((M7.pyFloatL ((M7.pyWords (M7.pyStrip line)).getD 2 [])).isSome : Bool) = true

/-- Stated from the spec's words (s01 4.3): the formatted value is chosen
by testing whether the CANONICAL metric name is one of the two monetary
names, the same test for both sources.  To be compared with the code's two
row builders. -/
def specFormattedByCanonical (canonical : String) (v : Option ℚ) : List Char :=
  if canonical = "Market Cap" ∨ canonical = "Enterprise Value" then
    format_large_number (pyOfOpt v)
  else yahooRow.plain2 v

/-- Identity term maps: the conversion table is absent, every label falls
through to itself. -/
def tmId : TermMaps := { yahoo := fun _ => Option.none, sa := fun _ => Option.none }

/-- A fetch environment in which the Yahoo bag has only `marketCap` and
the rendered page shows one PE line: both sources succeed. -/
def envBoth : FetchEnv :=
  { yahoo := fun _ =>
      Except.ok (fun k => if k = "marketCap" then Option.some 1000000 else Option.none)
    sa := fun _ => Except.ok "PE Ratio 45.49" }

/-- The Yahoo `Market Cap` row of `AAPL` for day 1. -/
def mcRow : TidyRow :=
  { Fetch_Date := 1, Data_Source := "yahoo_finance", Ticker := "AAPL",
    Measure := "Market Cap", Value_Raw := Option.some 1000000,
    Value_Formatted := "1.00M".toList }

/-- A long table holding, for day 1, the Yahoo `Market Cap` row of `AAPL`
and nothing else: exactly one source present. -/
def oneSourceTable : List TidyRow := [mcRow]

/-- A long table holding, for day 1, a Yahoo row of `AAPL` and an
all-absent StockAnalysis row of `AAPL` (the shape a failed rendered-text
fetch leaves behind): both sources present, one of them all-`N/A`. -/
def failedSaTable : List TidyRow :=
  [{ Fetch_Date := 1, Data_Source := "yahoo_finance", Ticker := "AAPL",
     Measure := "Market Cap", Value_Raw := Option.some 1000000,
     Value_Formatted := "1.00M".toList },
   { Fetch_Date := 1, Data_Source := "stockanalysis", Ticker := "AAPL",
     Measure := "PE Ratio", Value_Raw := Option.none,
     Value_Formatted := "N/A".toList }]

/-- A term map sending the Yahoo label `Market Cap` to the canonical name
`MC` (an entry the external conversion table is free to contain). -/
def tmMC : TermMaps :=
  { yahoo := fun l => if l = "Market Cap" then Option.some "MC" else Option.none
    sa := fun _ => Option.none }

end Src

namespace M7

/-! ## Facts about the decimal printer and parser -/

theorem digitCh_isDigit {d : ℕ} (hd : d < 10) : (digitCh d).isDigit = true := by
  interval_cases d <;> decide

theorem dval_digitCh {d : ℕ} (hd : d < 10) : dval (digitCh d) = d := by
  interval_cases d <;> decide

theorem digitCh_not_ws {d : ℕ} (hd : d < 10) : (digitCh d).isWhitespace = false := by
  interval_cases d <;> decide

theorem digitCh_ne {d : ℕ} (hd : d < 10) :
    digitCh d ≠ 'T' ∧ digitCh d ≠ 'B' ∧ digitCh d ≠ 'M' ∧ digitCh d ≠ 'A' ∧
      digitCh d ≠ '-' ∧ digitCh d ≠ '+' := by
  interval_cases d <;> decide

theorem digitsVal_concat (l : List Char) (c : Char) :
    digitsVal (l ++ [c]) = 10 * digitsVal l + dval c := by
  simp [digitsVal, List.foldl_append]

theorem natDigitsAux_spec :
    ∀ fuel n, n < fuel →
      natDigitsAux fuel n ≠ [] ∧ digitsVal (natDigitsAux fuel n) = n ∧
        ∀ c ∈ natDigitsAux fuel n, ∃ d, d < 10 ∧ c = digitCh d := by
  intro fuel
  induction fuel with
  | zero => intro n hn; omega
  | succ f ih =>
    intro n hn
    by_cases h10 : n < 10
    · refine ⟨by simp [natDigitsAux, h10], ?_, ?_⟩
      · simp [natDigitsAux, h10, digitsVal, dval_digitCh h10]
      · intro c hc
        simp [natDigitsAux, h10] at hc
        exact ⟨n, h10, hc⟩
    · have hrec := ih (n / 10) (by omega)
      refine ⟨by simp [natDigitsAux, h10], ?_, ?_⟩
      · rw [show natDigitsAux (f + 1) n
            = natDigitsAux f (n / 10) ++ [digitCh (n % 10)] by
              simp [natDigitsAux, h10]]
        rw [digitsVal_concat, hrec.2.1, dval_digitCh (by omega)]
        omega
      · intro c hc
        rw [show natDigitsAux (f + 1) n
            = natDigitsAux f (n / 10) ++ [digitCh (n % 10)] by
              simp [natDigitsAux, h10]] at hc
        rcases List.mem_append.mp hc with h | h
        · exact hrec.2.2 c h
        · simp at h
          exact ⟨n % 10, by omega, h⟩

theorem natDigits_ne_nil (n : ℕ) : natDigits n ≠ [] :=
  (natDigitsAux_spec (n + 1) n (Nat.lt_succ_self n)).1

theorem digitsVal_natDigits (n : ℕ) : digitsVal (natDigits n) = n :=
  (natDigitsAux_spec (n + 1) n (Nat.lt_succ_self n)).2.1

theorem natDigits_mem (n : ℕ) : ∀ c ∈ natDigits n, ∃ d, d < 10 ∧ c = digitCh d :=
  (natDigitsAux_spec (n + 1) n (Nat.lt_succ_self n)).2.2

theorem twoDig_mem (r : ℕ) : ∀ c ∈ twoDig r, ∃ d, d < 10 ∧ c = digitCh d := by
  intro c hc
  simp [twoDig] at hc
  rcases hc with h | h
  · exact ⟨r / 10 % 10, by omega, h⟩
  · exact ⟨r % 10, by omega, h⟩

theorem digitsVal_twoDig {r : ℕ} (hr : r < 100) : digitsVal (twoDig r) = r := by
  have h1 : r / 10 % 10 = r / 10 := by omega
  simp [twoDig, digitsVal, dval_digitCh (show r / 10 % 10 < 10 by omega),
    dval_digitCh (show r % 10 < 10 by omega)]
  omega

theorem dropWhile_eq_self_of_false {p : Char → Bool} {l : List Char}
    (h : ∀ c ∈ l, p c = false) : l.dropWhile p = l := by
  cases l with
  | nil => rfl
  | cons c cs => simp [List.dropWhile, h c (by simp)]

theorem pyStrip_eq_self {cs : List Char}
    (h : ∀ c ∈ cs, c.isWhitespace = false) : pyStrip cs = cs := by
  unfold pyStrip
  rw [dropWhile_eq_self_of_false h,
    dropWhile_eq_self_of_false (fun c hc => h c (List.mem_reverse.mp hc)),
    List.reverse_reverse]

theorem takeWhile_append_of_false {p : Char → Bool} {l r : List Char} {c : Char}
    (hl : ∀ x ∈ l, p x = true) (hc : p c = false) :
    (l ++ c :: r).takeWhile p = l ∧ (l ++ c :: r).dropWhile p = c :: r := by
  induction l with
  | nil => simp [List.takeWhile, List.dropWhile, hc]
  | cons a l ih =>
    have ha : p a = true := hl a (by simp)
    have := ih (fun x hx => hl x (by simp [hx]))
    simp [List.takeWhile, List.dropWhile, ha, this.1, this.2]

theorem div_add_mod_q (a : ℕ) :
    ((a / 100 : ℕ) : ℚ) + ((a % 100 : ℕ) : ℚ) / 100 = (a : ℚ) / 100 := by
  have h : a / 100 * 100 + a % 100 = a := Nat.div_add_mod' a 100
  field_simp
  exact_mod_cast h

theorem parseUnsigned_print {ip fp : List Char}
    (hip : ∀ c ∈ ip, ∃ d, d < 10 ∧ c = digitCh d) (hip0 : ip ≠ [])
    (hfp : ∀ c ∈ fp, ∃ d, d < 10 ∧ c = digitCh d) :
    parseUnsigned (ip ++ '.' :: fp)
      = Option.some ((digitsVal ip : ℚ) + (digitsVal fp : ℚ) / 10 ^ fp.length) := by
  have hipd : ∀ c ∈ ip, c.isDigit = true := by
    intro c hc
    obtain ⟨d, hd, rfl⟩ := hip c hc
    exact digitCh_isDigit hd
  have hfpd : ∀ c ∈ fp, c.isDigit = true := by
    intro c hc
    obtain ⟨d, hd, rfl⟩ := hfp c hc
    exact digitCh_isDigit hd
  obtain ⟨htk, hdr⟩ :=
    takeWhile_append_of_false (p := Char.isDigit) (c := '.') (r := fp) hipd (by decide)
  have hfpall : fp.all Char.isDigit = true := List.all_eq_true.mpr hfpd
  unfold parseUnsigned
  rw [hdr, htk]
  simp [hfpall, List.isEmpty_iff, hip0]

theorem fmt2_eq (q : ℚ) :
    fmt2 q = (if round (q * 100) < 0 then ['-'] else [])
      ++ natDigits ((round (q * 100)).natAbs / 100)
      ++ '.' :: twoDig ((round (q * 100)).natAbs % 100) := rfl

theorem fmt2_mem (q : ℚ) :
    ∀ c ∈ fmt2 q, c = '-' ∨ c = '.' ∨ ∃ d, d < 10 ∧ c = digitCh d := by
  intro c hc
  rw [fmt2_eq] at hc
  simp only [List.mem_append, List.mem_cons] at hc
  rcases hc with (h | h) | h | h
  · left
    rcases Int.lt_or_le (round (q * 100)) 0 with hneg | hpos
    · simp [hneg] at h; exact h
    · simp [Int.not_lt.mpr hpos] at h
  · right; right; exact natDigits_mem _ c h
  · right; left; exact h
  · right; right; exact twoDig_mem _ c h

theorem fmt2_not_ws (q : ℚ) : ∀ c ∈ fmt2 q, c.isWhitespace = false := by
  intro c hc
  rcases fmt2_mem q c hc with rfl | rfl | ⟨d, hd, rfl⟩
  · decide
  · decide
  · exact digitCh_not_ws hd

theorem fmt2_concat (q : ℚ) :
    ∃ pre d, d < 10 ∧ fmt2 q = pre ++ [digitCh d] := by
  refine ⟨(if round (q * 100) < 0 then ['-'] else [])
      ++ natDigits ((round (q * 100)).natAbs / 100)
      ++ ['.', digitCh ((round (q * 100)).natAbs % 100 / 10 % 10)],
    (round (q * 100)).natAbs % 100 % 10, by omega, ?_⟩
  rw [fmt2_eq]
  simp [twoDig]

theorem fmt2_getLast (q : ℚ) :
    ∃ d, d < 10 ∧ (fmt2 q).getLast? = Option.some (digitCh d) := by
  obtain ⟨pre, d, hd, heq⟩ := fmt2_concat q
  exact ⟨d, hd, by rw [heq, List.getLast?_concat]⟩

theorem parseUnsigned_fmt2_core (a : ℕ) :
    parseUnsigned (natDigits (a / 100) ++ '.' :: twoDig (a % 100))
      = Option.some ((a : ℚ) / 100) := by
  rw [parseUnsigned_print (natDigits_mem _) (natDigits_ne_nil _) (twoDig_mem _)]
  rw [digitsVal_natDigits, digitsVal_twoDig (Nat.mod_lt a (by norm_num))]
  rw [show (twoDig (a % 100)).length = 2 from rfl]
  norm_num
  exact_mod_cast div_add_mod_q a

theorem pyFloatL_fmt2 (q : ℚ) : pyFloatL (fmt2 q) = Option.some (pyRound2 q) := by
  have hval := parseUnsigned_fmt2_core (round (q * 100)).natAbs
  unfold pyFloatL
  rw [pyStrip_eq_self (fmt2_not_ws q)]
  by_cases hneg : round (q * 100) < 0
  · rw [show fmt2 q = '-' :: (natDigits ((round (q * 100)).natAbs / 100)
        ++ '.' :: twoDig ((round (q * 100)).natAbs % 100)) by rw [fmt2_eq]; simp [hneg]]
    have hcast : (((round (q * 100)).natAbs : ℕ) : ℚ) = -((round (q * 100) : ℤ) : ℚ) := by
      rw [Int.cast_natAbs, abs_of_neg hneg]
      push_cast
      ring
    simp only [if_pos rfl, hval, hcast, Option.map_some, if_true]
    unfold pyRound2
    show Option.some (-(-((round (q * 100) : ℤ) : ℚ) / 100))
      = Option.some (((round (q * 100) : ℤ) : ℚ) / 100)
    congr 1
    ring
  · rcases hnd : natDigits ((round (q * 100)).natAbs / 100) with _ | ⟨c0, l0⟩
    · exact absurd hnd (natDigits_ne_nil _)
    · obtain ⟨d0, hd0, hc0⟩ := natDigits_mem _ c0 (by rw [hnd]; simp)
      rw [show fmt2 q = c0 :: (l0 ++ '.' :: twoDig ((round (q * 100)).natAbs % 100)) by
        rw [fmt2_eq]; simp [hneg, hnd]]
      simp only []
      rw [if_neg (by rw [hc0]; exact (digitCh_ne hd0).2.2.2.2.1),
        if_neg (by rw [hc0]; exact (digitCh_ne hd0).2.2.2.2.2)]
      rw [show c0 :: (l0 ++ '.' :: twoDig ((round (q * 100)).natAbs % 100))
          = natDigits ((round (q * 100)).natAbs / 100)
            ++ '.' :: twoDig ((round (q * 100)).natAbs % 100) by rw [hnd]; rfl]
      rw [hval]
      congr 1
      unfold pyRound2
      rw [Int.cast_natAbs, abs_of_nonneg (by exact_mod_cast Int.not_lt.mp hneg)]

end M7

namespace Src

open M7

/-! ## Facts about `parse_value` applied to the formatter's output -/

theorem toList_mk (l : List Char) : (⟨l⟩ : String).toList = l := rfl

theorem mk_ne_NA {cs : List Char} (h : cs.getLast? ≠ Option.some 'A') :
    (⟨cs⟩ : String) ≠ "N/A" := by
  intro he
  apply h
  have hd : cs = "N/A".toList := congrArg String.toList he
  rw [hd]
  decide

theorem fmt2_suffix_not_ws {q : ℚ} {c : Char} (hc : c.isWhitespace = false) :
    ∀ x ∈ fmt2 q ++ [c], x.isWhitespace = false := by
  intro x hx
  rcases List.mem_append.mp hx with h | h
  · exact fmt2_not_ws q x h
  · simp at h
    rw [h]
    exact hc

theorem parse_value_fmt2_T (q : ℚ) :
    parse_value ⟨fmt2 q ++ ['T']⟩
      = Except.ok (Option.some (pyRound2 q * 10 ^ 12)) := by
  unfold parse_value
  rw [if_neg (mk_ne_NA (by rw [List.getLast?_concat]; decide)),
    toList_mk, pyStrip_eq_self (fmt2_suffix_not_ws (by decide))]
  unfold parse_value_core
  rw [List.getLast?_concat, if_pos rfl, List.dropLast_concat, pyFloatL_fmt2]

theorem parse_value_fmt2_B (q : ℚ) :
    parse_value ⟨fmt2 q ++ ['B']⟩
      = Except.ok (Option.some (pyRound2 q * 10 ^ 9)) := by
  unfold parse_value
  rw [if_neg (mk_ne_NA (by rw [List.getLast?_concat]; decide)),
    toList_mk, pyStrip_eq_self (fmt2_suffix_not_ws (by decide))]
  unfold parse_value_core
  rw [List.getLast?_concat, if_neg (by decide), if_pos rfl,
    List.dropLast_concat, pyFloatL_fmt2]

theorem parse_value_fmt2_M (q : ℚ) :
    parse_value ⟨fmt2 q ++ ['M']⟩
      = Except.ok (Option.some (pyRound2 q * 10 ^ 6)) := by
  unfold parse_value
  rw [if_neg (mk_ne_NA (by rw [List.getLast?_concat]; decide)),
    toList_mk, pyStrip_eq_self (fmt2_suffix_not_ws (by decide))]
  unfold parse_value_core
  rw [List.getLast?_concat, if_neg (by decide), if_neg (by decide), if_pos rfl,
    List.dropLast_concat, pyFloatL_fmt2]

theorem parse_value_fmt2_plain (q : ℚ) :
    parse_value ⟨fmt2 q⟩ = Except.ok (Option.some (pyRound2 q)) := by
  obtain ⟨d, hd, hlast⟩ := fmt2_getLast q
  unfold parse_value
  rw [if_neg (mk_ne_NA (by
      rw [hlast]
      simp only [ne_eq, Option.some.injEq]
      exact (digitCh_ne hd).2.2.2.1)),
    toList_mk, pyStrip_eq_self (fmt2_not_ws q)]
  unfold parse_value_core
  rw [if_neg (by rw [hlast]; simp only [Option.some.injEq]; exact (digitCh_ne hd).1),
    if_neg (by rw [hlast]; simp only [Option.some.injEq]; exact (digitCh_ne hd).2.1),
    if_neg (by rw [hlast]; simp only [Option.some.injEq]; exact (digitCh_ne hd).2.2.1),
    pyFloatL_fmt2]

/-! ## Claim C10 -/

/-- C10: for every finite non-negative `x`, parsing the formatted string
recovers `x` up to the formatter's rounding — `round(x/10^12, 2) * 10^12`
in the `T` range, analogously for `B` and `M`, `round(x, 2)` below `10^6`
— and parsing the missing marker `"N/A"` gives the absent value. -/
theorem C10_format_parse_roundtrip (x : ℚ) (hx : 0 ≤ x) :
    (10 ^ 12 ≤ x →
      parse_value ⟨format_large_number (PyVal.num x)⟩
        = Except.ok (Option.some (pyRound2 (x / 10 ^ 12) * 10 ^ 12)))
  ∧ (10 ^ 9 ≤ x → x < 10 ^ 12 →
      parse_value ⟨format_large_number (PyVal.num x)⟩
        = Except.ok (Option.some (pyRound2 (x / 10 ^ 9) * 10 ^ 9)))
  ∧ (10 ^ 6 ≤ x → x < 10 ^ 9 →
      parse_value ⟨format_large_number (PyVal.num x)⟩
        = Except.ok (Option.some (pyRound2 (x / 10 ^ 6) * 10 ^ 6)))
  ∧ (x < 10 ^ 6 →
      parse_value ⟨format_large_number (PyVal.num x)⟩
        = Except.ok (Option.some (pyRound2 x)))
  ∧ parse_value "N/A" = Except.ok Option.none := by
  refine ⟨?_, ?_, ?_, ?_, ?_⟩
  · intro h12
    rw [show format_large_number (PyVal.num x) = fmt2 (x / 10 ^ 12) ++ ['T'] by
      unfold format_large_number format_large_number.formatThresh
      simp only [ge_iff_le]
      rw [if_pos h12]]
    exact parse_value_fmt2_T _
  · intro h9 h12
    rw [show format_large_number (PyVal.num x) = fmt2 (x / 10 ^ 9) ++ ['B'] by
      unfold format_large_number format_large_number.formatThresh
      simp only [ge_iff_le]
      rw [if_neg (not_le.mpr h12), if_pos h9]]
    exact parse_value_fmt2_B _
  · intro h6 h9
    rw [show format_large_number (PyVal.num x) = fmt2 (x / 10 ^ 6) ++ ['M'] by
      unfold format_large_number format_large_number.formatThresh
      simp only [ge_iff_le]
      rw [if_neg (not_le.mpr (lt_of_lt_of_le h9 (by norm_num))),
        if_neg (not_le.mpr h9), if_pos h6]]
    exact parse_value_fmt2_M _
  · intro h6
    rw [show format_large_number (PyVal.num x) = fmt2 x by
      unfold format_large_number format_large_number.formatThresh
      simp only [ge_iff_le]
      rw [if_neg (not_le.mpr (lt_of_lt_of_le h6 (by norm_num))),
        if_neg (not_le.mpr (lt_of_lt_of_le h6 (by norm_num))),
        if_neg (not_le.mpr h6)]]
    exact parse_value_fmt2_plain _
  · unfold parse_value
    rw [if_pos rfl]

/-- Witness for C10 at `x = 2.5 * 10^12`: the round trip returns exactly
`2.5 * 10^12`. -/
theorem C10_format_parse_roundtrip_witness :
    (0 : ℚ) ≤ 25 * 10 ^ 11 ∧
      parse_value ⟨format_large_number (PyVal.num (25 * 10 ^ 11))⟩
        = Except.ok (Option.some (25 * 10 ^ 11 : ℚ)) :=
  ⟨by norm_num, by
    rw [(C10_format_parse_roundtrip (25 * 10 ^ 11) (by norm_num)).1 (by norm_num)]
    with_unfolding_all rfl⟩

/-! ## Claim C4 -/

/-- C4 counterexample: `"abc"` is a non-numeric value (`float` fails on
it), yet `format_large_number` returns `str("abc") = "abc"`, not the
claimed literal `"N/A"`. -/
theorem C4_formatter_counterexample :
    pyFloatL "abc".toList = Option.none ∧
      format_large_number (PyVal.str "abc") = "abc".toList ∧
      format_large_number (PyVal.str "abc") ≠ "N/A".toList := by
  have h : format_large_number (PyVal.str "abc") = "abc".toList := by
    with_unfolding_all rfl
  exact ⟨by with_unfolding_all rfl, h, by rw [h]; decide⟩

/-- C4 as amended: the threshold/suffix cascade holds for every number,
and `None`/`NaN` format to `"N/A"`; but a non-numeric value is returned
through `str(num)` unchanged (numeric strings are first parsed by `float`
and then formatted like numbers), not as `"N/A"`. -/
theorem C4_formatter_thresholds :
    (∀ q : ℚ, 10 ^ 12 ≤ q →
        format_large_number (PyVal.num q) = fmt2 (q / 10 ^ 12) ++ ['T'])
  ∧ (∀ q : ℚ, 10 ^ 9 ≤ q → q < 10 ^ 12 →
        format_large_number (PyVal.num q) = fmt2 (q / 10 ^ 9) ++ ['B'])
  ∧ (∀ q : ℚ, 10 ^ 6 ≤ q → q < 10 ^ 9 →
        format_large_number (PyVal.num q) = fmt2 (q / 10 ^ 6) ++ ['M'])
  ∧ (∀ q : ℚ, q < 10 ^ 6 → format_large_number (PyVal.num q) = fmt2 q)
  ∧ format_large_number PyVal.none = "N/A".toList
  ∧ format_large_number PyVal.nan = "N/A".toList
  ∧ (∀ s q, pyFloatL s.toList = Option.some q →
        format_large_number (PyVal.str s) = format_large_number (PyVal.num q))
  ∧ (∀ s, pyFloatL s.toList = Option.none →
        format_large_number (PyVal.str s) = s.toList) := by
  refine ⟨?_, ?_, ?_, ?_, rfl, rfl, ?_, ?_⟩
  · intro q h12
    unfold format_large_number format_large_number.formatThresh
    simp only [ge_iff_le]
    rw [if_pos h12]
  · intro q h9 h12
    unfold format_large_number format_large_number.formatThresh
    simp only [ge_iff_le]
    rw [if_neg (not_le.mpr h12), if_pos h9]
  · intro q h6 h9
    unfold format_large_number format_large_number.formatThresh
    simp only [ge_iff_le]
    rw [if_neg (not_le.mpr (lt_of_lt_of_le h9 (by norm_num))),
      if_neg (not_le.mpr h9), if_pos h6]
  · intro q h6
    unfold format_large_number format_large_number.formatThresh
    simp only [ge_iff_le]
    rw [if_neg (not_le.mpr (lt_of_lt_of_le h6 (by norm_num))),
      if_neg (not_le.mpr (lt_of_lt_of_le h6 (by norm_num))),
      if_neg (not_le.mpr h6)]
  · intro s q hs
    show (match pyFloatL s.toList with
      | Option.some q => format_large_number.formatThresh q
      | Option.none => s.toList) = _
    rw [hs]
    rfl
  · intro s hs
    show (match pyFloatL s.toList with
      | Option.some q => format_large_number.formatThresh q
      | Option.none => s.toList) = _
    rw [hs]

/-- Witness for C4 at `q = 2 * 10^12`: the formatter emits `"2.00T"`. -/
theorem C4_formatter_thresholds_witness :
    (10 ^ 12 : ℚ) ≤ 2 * 10 ^ 12 ∧
      format_large_number (PyVal.num (2 * 10 ^ 12)) = "2.00T".toList :=
  ⟨by norm_num, by
    rw [C4_formatter_thresholds.1 (2 * 10 ^ 12) (by norm_num)]
    with_unfolding_all rfl⟩

/-! ## Structural facts about the extractors and the merge -/

theorem setKey_keys (m : List (String × Option ℚ)) (k : String) (v : ℚ) :
    (setKey m k v).map Prod.fst = m.map Prod.fst := by
  unfold setKey
  rw [List.map_map]
  congr 1
  funext p
  by_cases h : p.1 = k <;> simp [h]

theorem trySet_keys (m : List (String × Option ℚ)) (k : String) (tok : List Char) :
    (scanLine.trySet m k tok).map Prod.fst = m.map Prod.fst := by
  unfold scanLine.trySet
  cases M7.pyFloatL tok <;> simp [setKey_keys]

theorem scanLine_keys (m : List (String × Option ℚ)) (line : List Char) :
    (scanLine m line).map Prod.fst = m.map Prod.fst := by
  simp only [scanLine]
  split_ifs <;> simp [trySet_keys]

theorem foldl_scanLine_keys (ls : List (List Char)) (m : List (String × Option ℚ)) :
    (ls.foldl scanLine m).map Prod.fst = m.map Prod.fst := by
  induction ls generalizing m with
  | nil => rfl
  | cons l ls ih => rw [List.foldl_cons, ih, scanLine_keys]

theorem fetch_sa_keys (render : Except String String) :
    ∃ ms, fetch_stockanalysis_data render = Option.some ms
      ∧ ms.map Prod.fst = saLabels := by
  cases render with
  | error e => exact ⟨saInit, rfl, rfl⟩
  | ok page => exact ⟨_, rfl, foldl_scanLine_keys _ _⟩

theorem tickerRows_ne_nil (env : FetchEnv) (tm : TermMaps) (d : ℕ) (t : String) :
    tickerRows env tm d t ≠ [] := by
  obtain ⟨ms, hms, hkeys⟩ := fetch_sa_keys (env.sa t)
  unfold tickerRows
  rw [hms]
  intro h
  rcases List.append_eq_nil.mp h with ⟨-, h2⟩
  rw [List.map_eq_nil.mp h2] at hkeys
  simp [saLabels, saInit] at hkeys

theorem tickerRows_fields (env : FetchEnv) (tm : TermMaps) (d : ℕ) (t : String) :
    ∀ r ∈ tickerRows env tm d t,
      r.Ticker = t ∧ r.Fetch_Date = d ∧
        (r.Data_Source = "yahoo_finance" ∨ r.Data_Source = "stockanalysis") := by
  intro r hr
  unfold tickerRows at hr
  rcases List.mem_append.mp hr with h | h
  · cases hy : fetch_yahoo_finance_data (env.yahoo t) with
    | none => rw [hy] at h; simp at h
    | some ms =>
      rw [hy] at h
      simp only [] at h
      obtain ⟨p, hp, rfl⟩ := List.mem_map.mp h
      exact ⟨rfl, rfl, Or.inl rfl⟩
  · obtain ⟨ms, hms, -⟩ := fetch_sa_keys (env.sa t)
    rw [hms] at h
    simp only [] at h
    obtain ⟨p, hp, rfl⟩ := List.mem_map.mp h
    exact ⟨rfl, rfl, Or.inr rfl⟩

theorem crawl_noop (env : FetchEnv) (tm : TermMaps) (tickers : List String)
    (table : List TidyRow) (d : ℕ) (h : tickersToFetch table d tickers = []) :
    crawl_magnificent7 env tm tickers table d
      = { full := table, wide := Option.none } := by
  unfold crawl_magnificent7
  rw [h]
  rfl

theorem crawl_run (env : FetchEnv) (tm : TermMaps) (tickers : List String)
    (table : List TidyRow) (d : ℕ) (h : tickersToFetch table d tickers ≠ []) :
    crawl_magnificent7 env tm tickers table d =
      { full := table
          ++ ((tickersToFetch table d tickers).map (tickerRows env tm d)).flatten,
        wide := Option.some
          (latestDate (table
            ++ ((tickersToFetch table d tickers).map (tickerRows env tm d)).flatten),
           latestRows (table
            ++ ((tickersToFetch table d tickers).map (tickerRows env tm d)).flatten)) } := by
  have hall : ((tickersToFetch table d tickers).map (tickerRows env tm d)).flatten ≠ [] := by
    rcases hf : tickersToFetch table d tickers with _ | ⟨t, ts⟩
    · exact absurd hf h
    · simp only [List.map_cons, List.flatten_cons]
      intro hnil
      exact tickerRows_ne_nil env tm d t (List.append_eq_nil.mp hnil).1
  unfold crawl_magnificent7
  rw [if_neg (by rw [List.isEmpty_iff]; exact h),
    if_neg (by rw [List.isEmpty_iff]; exact hall)]

/-! ## Claim C6 -/

/-- C6: on any extraction error (page load failure, rendering problem) the
rendered-text extractor returns the complete five-metric record with every
value explicitly absent, never propagating the failure — while the
structured fetcher returns `None` on error, so a caller can tell
"fetched, all missing" apart from "never attempted". -/
theorem C6_sa_error_full_record (msg : String) :
    fetch_stockanalysis_data (Except.error msg) = Option.some saInit
  ∧ saInit.map Prod.fst
      = ["PE Ratio", "Forward PE", "PS Ratio", "PB Ratio", "PEG Ratio"]
  ∧ saInit.all (fun p => p.2 == Option.none) = true
  ∧ fetch_yahoo_finance_data (Except.error msg) = Option.none :=
  ⟨rfl, rfl, rfl, rfl⟩

/-! ## Claim C7 -/

/-- C7: a field absent from the retrieved property bag yields an explicit
missing value (not zero) for its metric; a total retrieval failure yields
no Yahoo rows at all for the ticker while the rendered-text source is
still attempted for it, and every ticker selected for fetching still
contributes its rows to the appended table. -/
theorem C7_structured_source_errors :
    (∀ info, fetch_yahoo_finance_data (Except.ok info)
        = Option.some (yahooFields.map (fun p => (p.1, info p.2))))
  ∧ (∀ (info : String → Option ℚ) lab key, (lab, key) ∈ yahooFields →
      info key = Option.none →
      (lab, (Option.none : Option ℚ)) ∈ yahooFields.map (fun p => (p.1, info p.2))
        ∧ (Option.none : Option ℚ) ≠ Option.some 0)
  ∧ (∀ msg, fetch_yahoo_finance_data (Except.error msg) = Option.none)
  ∧ (∀ env tm d t msg, env.yahoo t = Except.error msg →
      (∀ r ∈ tickerRows env tm d t, r.Data_Source = "stockanalysis")
        ∧ tickerRows env tm d t ≠ [])
  ∧ (∀ env tm tickers table d, tickersToFetch table d tickers ≠ [] →
      (crawl_magnificent7 env tm tickers table d).full
        = table
          ++ ((tickersToFetch table d tickers).map (tickerRows env tm d)).flatten) := by
  refine ⟨fun info => rfl, ?_, fun msg => rfl, ?_, ?_⟩
  · intro info lab key hmem habs
    refine ⟨?_, by simp⟩
    rw [List.mem_map]
    exact ⟨(lab, key), hmem, by rw [← habs]⟩
  · intro env tm d t msg herr
    obtain ⟨ms, hms, -⟩ := fetch_sa_keys (env.sa t)
    have heq : tickerRows env tm d t = ms.map (saRow tm d t) := by
      unfold tickerRows
      rw [show fetch_yahoo_finance_data (env.yahoo t) = Option.none by rw [herr]; rfl, hms]
      rfl
    constructor
    · intro r hr
      rw [heq] at hr
      obtain ⟨p, hp, rfl⟩ := List.mem_map.mp hr
      rfl
    · exact tickerRows_ne_nil env tm d t
  · intro env tm tickers table d h
    rw [crawl_run env tm tickers table d h]

/-- Witness for C7: a concrete property bag missing `marketCap`, and a
concrete environment whose Yahoo retrieval fails for every ticker. -/
theorem C7_structured_source_errors_witness :
    (("Market Cap", "marketCap") ∈ yahooFields
      ∧ (fun _ => (Option.none : Option ℚ)) "marketCap" = Option.none
      ∧ ("Market Cap", (Option.none : Option ℚ))
          ∈ yahooFields.map (fun p => (p.1, (fun _ => (Option.none : Option ℚ)) p.2)))
  ∧ (∀ r ∈ tickerRows
        { yahoo := fun _ => Except.error "boom", sa := fun _ => Except.ok "" }
        { yahoo := fun _ => Option.none, sa := fun _ => Option.none } 1 "AAPL",
      r.Data_Source = "stockanalysis") :=
  ⟨⟨by decide, rfl,
    (C7_structured_source_errors.2.1 (fun _ => Option.none) "Market Cap" "marketCap"
      (by decide) rfl).1⟩,
   (C7_structured_source_errors.2.2.2.1
      { yahoo := fun _ => Except.error "boom", sa := fun _ => Except.ok "" }
      { yahoo := fun _ => Option.none, sa := fun _ => Option.none } 1 "AAPL" "boom" rfl).1⟩

/-! ## Coverage and idempotence of the merge -/

theorem todaySources_mem {table : List TidyRow} {d : ℕ} {t : String} (x : String) :
    x ∈ todaySources table d t ↔
      ∃ r ∈ table, r.Fetch_Date = d ∧ r.Ticker = t ∧ r.Data_Source = x := by
  unfold todaySources
  simp only [List.mem_map, List.mem_filter, Bool.and_eq_true, beq_iff_eq]
  constructor
  · rintro ⟨r, ⟨hr, hd, ht⟩, rfl⟩
    exact ⟨r, hr, hd, ht, rfl⟩
  · rintro ⟨r, hr, hd, ht, rfl⟩
    exact ⟨r, ⟨hr, hd, ht⟩, rfl⟩

theorem dedup_length_two {l : List String}
    (hy : "yahoo_finance" ∈ l) (hs : "stockanalysis" ∈ l)
    (hsub : ∀ x ∈ l, x = "yahoo_finance" ∨ x = "stockanalysis") :
    l.dedup.length = 2 := by
  have hfin : l.toFinset = {"yahoo_finance", "stockanalysis"} := by
    ext a
    simp only [List.mem_toFinset, Finset.mem_insert, Finset.mem_singleton]
    constructor
    · exact hsub a
    · rintro (rfl | rfl) <;> assumption
  have hdl := List.card_toFinset l
  rw [hfin] at hdl
  rw [← hdl]
  rw [Finset.card_insert_of_not_mem (by simp), Finset.card_singleton]

theorem fullyFetched_iff {table : List TidyRow} {d : ℕ} {t : String} :
    fullyFetched table d t = true ↔ (todaySources table d t).dedup.length = 2 := by
  unfold fullyFetched
  simp [beq_iff_eq]

theorem fullyFetched_of_both {table : List TidyRow} {d : ℕ} {t : String}
    (hwf : ∀ r ∈ table,
      r.Data_Source = "yahoo_finance" ∨ r.Data_Source = "stockanalysis")
    (hy : ∃ r ∈ table, r.Fetch_Date = d ∧ r.Ticker = t
      ∧ r.Data_Source = "yahoo_finance")
    (hs : ∃ r ∈ table, r.Fetch_Date = d ∧ r.Ticker = t
      ∧ r.Data_Source = "stockanalysis") :
    fullyFetched table d t = true := by
  rw [fullyFetched_iff]
  apply dedup_length_two
  · exact (todaySources_mem _).mpr hy
  · exact (todaySources_mem _).mpr hs
  · intro x hx
    obtain ⟨r, hr, -, -, rfl⟩ := (todaySources_mem x).mp hx
    exact hwf r hr

theorem not_mem_toFetch {table : List TidyRow} {d : ℕ} {t : String}
    {tickers : List String} (h : fullyFetched table d t = true) :
    t ∉ tickersToFetch table d tickers := by
  unfold tickersToFetch
  intro hmem
  have hx := (List.mem_filter.mp hmem).2
  rw [h] at hx
  simp at hx

theorem mem_toFetch {table : List TidyRow} {d : ℕ} {t : String}
    {tickers : List String} (ht : t ∈ tickers)
    (h : fullyFetched table d t = false) :
    t ∈ tickersToFetch table d tickers := by
  unfold tickersToFetch
  exact List.mem_filter.mpr ⟨ht, by simp [h]⟩

theorem toFetch_nil_iff {table : List TidyRow} {d : ℕ} {tickers : List String} :
    tickersToFetch table d tickers = []
      ↔ ∀ t ∈ tickers, fullyFetched table d t = true := by
  unfold tickersToFetch
  rw [List.filter_eq_nil]
  constructor
  · intro h t ht
    have := h t ht
    simpa using this
  · intro h t ht
    simp [h t ht]

theorem todaySources_append (t1 t2 : List TidyRow) (d : ℕ) (t : String) :
    todaySources (t1 ++ t2) d t = todaySources t1 d t ++ todaySources t2 d t := by
  unfold todaySources
  rw [List.filter_append, List.map_append]

theorem fullyFetched_append_irrelevant {table new : List TidyRow} {d : ℕ} {t : String}
    (hnew : ∀ r ∈ new, r.Ticker ≠ t) :
    fullyFetched (table ++ new) d t = fullyFetched table d t := by
  unfold fullyFetched
  rw [todaySources_append,
    show todaySources new d t = [] by
      unfold todaySources
      rw [show new.filter (fun r => r.Fetch_Date == d && r.Ticker == t) = [] from
        List.filter_eq_nil.mpr (fun r hr => by simp [hnew r hr])]
      rfl,
    List.append_nil]

theorem new_rows_tickers {env : FetchEnv} {tm : TermMaps} {d : ℕ}
    {toFetch : List String} :
    ∀ r ∈ (toFetch.map (tickerRows env tm d)).flatten, r.Ticker ∈ toFetch := by
  intro r hr
  obtain ⟨l, hl, hrl⟩ := List.mem_flatten.mp hr
  obtain ⟨t2, ht2, rfl⟩ := List.mem_map.mp hl
  rw [(tickerRows_fields env tm d t2 r hrl).1]
  exact ht2

theorem covered_after_run {env : FetchEnv} {tm : TermMaps} {tickers : List String}
    {table : List TidyRow} {d : ℕ}
    (hwf : ∀ r ∈ table,
      r.Data_Source = "yahoo_finance" ∨ r.Data_Source = "stockanalysis")
    (hok : ∀ t ∈ tickersToFetch table d tickers,
      ∃ info, env.yahoo t = Except.ok info) :
    ∀ t ∈ tickers,
      fullyFetched (crawl_magnificent7 env tm tickers table d).full d t = true := by
  intro t ht
  by_cases htf : tickersToFetch table d tickers = []
  · rw [crawl_noop _ _ _ _ _ htf]
    exact toFetch_nil_iff.mp htf t ht
  · rw [crawl_run _ _ _ _ _ htf]
    by_cases hmem : t ∈ tickersToFetch table d tickers
    · apply fullyFetched_of_both
      · intro r hr
        rcases List.mem_append.mp hr with h | h
        · exact hwf r h
        · obtain ⟨l, hl, hrl⟩ := List.mem_flatten.mp h
          obtain ⟨t2, ht2, rfl⟩ := List.mem_map.mp hl
          exact (tickerRows_fields env tm d t2 r hrl).2.2
      · obtain ⟨info, hinfo⟩ := hok t hmem
        refine ⟨yahooRow tm d t ("Market Cap", info "marketCap"), ?_, rfl, rfl, rfl⟩
        apply List.mem_append.mpr
        right
        apply List.mem_flatten.mpr
        refine ⟨tickerRows env tm d t, List.mem_map.mpr ⟨t, hmem, rfl⟩, ?_⟩
        unfold tickerRows
        rw [show fetch_yahoo_finance_data (env.yahoo t)
            = Option.some (yahooFields.map (fun p => (p.1, info p.2))) by
          rw [hinfo]; rfl]
        apply List.mem_append.mpr
        left
        show yahooRow tm d t ("Market Cap", info "marketCap")
          ∈ (yahooFields.map (fun p => (p.1, info p.2))).map (yahooRow tm d t)
        apply List.mem_map.mpr
        refine ⟨("Market Cap", info "marketCap"), ?_, rfl⟩
        apply List.mem_map.mpr
        exact ⟨("Market Cap", "marketCap"), by decide, rfl⟩
      · obtain ⟨ms, hms, hkeys⟩ := fetch_sa_keys (env.sa t)
        rcases hms2 : ms with _ | ⟨p, ps⟩
        · rw [hms2] at hkeys
          simp [saLabels, saInit] at hkeys
        · refine ⟨saRow tm d t p, ?_, rfl, rfl, rfl⟩
          apply List.mem_append.mpr
          right
          apply List.mem_flatten.mpr
          refine ⟨tickerRows env tm d t, List.mem_map.mpr ⟨t, hmem, rfl⟩, ?_⟩
          unfold tickerRows
          rw [hms, hms2]
          apply List.mem_append.mpr
          right
          show saRow tm d t p ∈ (p :: ps).map (saRow tm d t)
          exact List.mem_map.mpr ⟨p, by simp, rfl⟩
    · have hff : fullyFetched table d t = true := by
        by_contra hff
        exact hmem (mem_toFetch ht (Bool.not_eq_true _ ▸ eq_false_of_ne_true hff))
      rw [fullyFetched_append_irrelevant (fun r hr => by
        intro hrt
        exact hmem (hrt ▸ new_rows_tickers r hr))]
      exact hff

/-! ## Claim C9 -/

/-- C9: the same-day coverage test is exactly "two distinct `Data_Source`
values among that ticker's rows of that day", computed from the
`(Fetch_Date, Data_Source, Ticker)` projection alone — values are never
inspected — so a ticker whose rendered-text fetch failed (all-absent
`stockanalysis` rows) still counts as covered and is skipped on a same-day
re-run. -/
theorem C9_coverage_value_blind :
    (∀ (table : List TidyRow) d t,
      fullyFetched table d t = true ↔ (todaySources table d t).dedup.length = 2)
  ∧ (∀ (table1 table2 : List TidyRow) d t,
      table1.map (fun r => (r.Fetch_Date, r.Data_Source, r.Ticker))
        = table2.map (fun r => (r.Fetch_Date, r.Data_Source, r.Ticker)) →
      fullyFetched table1 d t = fullyFetched table2 d t)
  ∧ (∀ (table : List TidyRow) d t (tickers : List String),
      (∀ r ∈ table,
        r.Data_Source = "yahoo_finance" ∨ r.Data_Source = "stockanalysis") →
      (∃ r ∈ table, r.Fetch_Date = d ∧ r.Ticker = t
        ∧ r.Data_Source = "yahoo_finance") →
      (∃ r ∈ table, r.Fetch_Date = d ∧ r.Ticker = t
        ∧ r.Data_Source = "stockanalysis" ∧ r.Value_Raw = Option.none
        ∧ r.Value_Formatted = "N/A".toList) →
      fullyFetched table d t = true ∧ t ∉ tickersToFetch table d tickers) := by
  refine ⟨fun table d t => fullyFetched_iff, ?_, ?_⟩
  · intro table1 table2 d t hproj
    have hts : ∀ (tb : List TidyRow),
        todaySources tb d t
          = ((tb.map (fun r => (r.Fetch_Date, r.Data_Source, r.Ticker))).filter
              (fun x => x.1 == d && x.2.2 == t)).map (fun x => x.2.1) := by
      intro tb
      unfold todaySources
      rw [List.filter_map, List.map_map]
      rfl
    unfold fullyFetched
    rw [hts, hts, hproj]
  · intro table d t tickers hwf hy hs
    have hff : fullyFetched table d t = true := by
      apply fullyFetched_of_both hwf hy
      obtain ⟨r, hr, h1, h2, h3, -, -⟩ := hs
      exact ⟨r, hr, h1, h2, h3⟩
    exact ⟨hff, not_mem_toFetch hff⟩

/-- Witness for C9: the two-row table left behind by a run whose
rendered-text fetch failed is covered, and the ticker is skipped. -/
theorem C9_coverage_value_blind_witness :
    fullyFetched failedSaTable 1 "AAPL" = true
      ∧ "AAPL" ∉ tickersToFetch failedSaTable 1 ["AAPL"] :=
  C9_coverage_value_blind.2.2 failedSaTable 1 "AAPL" ["AAPL"]
    (by decide) (by decide) (by decide)

/-! ## Claim C2 -/

/-- C2: a ticker whose long table already has today's rows from both
source ids is skipped entirely; when every configured ticker is covered
the run is a no-op that writes nothing; consequently, once a run has
covered every configured ticker, a same-day re-invocation (under any
environment) leaves the long table unchanged. -/
theorem C2_idempotent_same_day :
    (∀ (table : List TidyRow) d t (tickers : List String),
      (∀ r ∈ table,
        r.Data_Source = "yahoo_finance" ∨ r.Data_Source = "stockanalysis") →
      (∃ r ∈ table, r.Fetch_Date = d ∧ r.Ticker = t
        ∧ r.Data_Source = "yahoo_finance") →
      (∃ r ∈ table, r.Fetch_Date = d ∧ r.Ticker = t
        ∧ r.Data_Source = "stockanalysis") →
      t ∉ tickersToFetch table d tickers)
  ∧ (∀ env tm (tickers : List String) (table : List TidyRow) d,
      (∀ t ∈ tickers, fullyFetched table d t = true) →
      crawl_magnificent7 env tm tickers table d
        = { full := table, wide := Option.none })
  ∧ (∀ env tm (tickers : List String) (table : List TidyRow) d,
      (∀ r ∈ table,
        r.Data_Source = "yahoo_finance" ∨ r.Data_Source = "stockanalysis") →
      (∀ t ∈ tickersToFetch table d tickers,
        ∃ info, env.yahoo t = Except.ok info) →
      ∀ env2 tm2,
        crawl_magnificent7 env2 tm2 tickers
            (crawl_magnificent7 env tm tickers table d).full d
          = { full := (crawl_magnificent7 env tm tickers table d).full,
              wide := Option.none }) := by
  refine ⟨?_, ?_, ?_⟩
  · intro table d t tickers hwf hy hs
    exact not_mem_toFetch (fullyFetched_of_both hwf hy hs)
  · intro env tm tickers table d h
    exact crawl_noop env tm tickers table d (toFetch_nil_iff.mpr h)
  · intro env tm tickers table d hwf hok env2 tm2
    exact crawl_noop env2 tm2 tickers _ d
      (toFetch_nil_iff.mpr (covered_after_run hwf hok))

/-- Witness for C2: after one successful run on an empty table, a second
same-day run changes nothing and writes nothing. -/
theorem C2_idempotent_same_day_witness :
    crawl_magnificent7 envBoth tmId ["AAPL"]
        (crawl_magnificent7 envBoth tmId ["AAPL"] [] 1).full 1
      = { full := (crawl_magnificent7 envBoth tmId ["AAPL"] [] 1).full,
          wide := Option.none } :=
  C2_idempotent_same_day.2.2 envBoth tmId ["AAPL"] [] 1
    (by simp) (fun t ht => ⟨_, rfl⟩) envBoth tmId

/-! ## Claim C1 -/

/-- C1 counterexample: `AAPL` has today's rows from exactly one source
(`yahoo_finance`); the claim says the merge would append only the missing
source's rows, but the run re-fetches both sources and afterwards the key
`(1, yahoo_finance, AAPL, Market Cap)` occurs twice in the long table. -/
theorem C1_duplicate_key_counterexample :
    (todaySources oneSourceTable 1 "AAPL").dedup = ["yahoo_finance"]
      ∧ ((crawl_magnificent7 envBoth tmId ["AAPL"] oneSourceTable 1).full.filter
          (fun r => r.Fetch_Date == 1 && r.Data_Source == "yahoo_finance"
            && r.Ticker == "AAPL" && r.Measure == "Market Cap")).length = 2 := by
  constructor
  · decide
  · with_unfolding_all rfl

/-- C1 as amended: no duplicates are introduced for a ticker already
covered by BOTH sources (it is skipped and contributes no new rows), but a
ticker with today's rows from exactly one source is re-fetched from both
sources — the coverage check is all-or-nothing per ticker, so rows for the
already-present source are appended again. -/
theorem C1_per_ticker_coverage :
    (∀ (table : List TidyRow) d t (tickers : List String) env tm,
      (∀ r ∈ table,
        r.Data_Source = "yahoo_finance" ∨ r.Data_Source = "stockanalysis") →
      (∃ r ∈ table, r.Fetch_Date = d ∧ r.Ticker = t
        ∧ r.Data_Source = "yahoo_finance") →
      (∃ r ∈ table, r.Fetch_Date = d ∧ r.Ticker = t
        ∧ r.Data_Source = "stockanalysis") →
      t ∉ tickersToFetch table d tickers ∧
        ∀ r ∈ (crawl_magnificent7 env tm tickers table d).full,
          r ∈ table ∨ r.Ticker ≠ t)
  ∧ (∀ (table : List TidyRow) d t (tickers : List String), t ∈ tickers →
      (todaySources table d t).dedup.length = 1 →
      t ∈ tickersToFetch table d tickers) := by
  constructor
  · intro table d t tickers env tm hwf hy hs
    have hnotin : t ∉ tickersToFetch table d tickers :=
      not_mem_toFetch (fullyFetched_of_both hwf hy hs)
    refine ⟨hnotin, ?_⟩
    intro r hr
    by_cases htf : tickersToFetch table d tickers = []
    · rw [crawl_noop _ _ _ _ _ htf] at hr
      exact Or.inl hr
    · rw [crawl_run _ _ _ _ _ htf] at hr
      rcases List.mem_append.mp hr with h | h
      · exact Or.inl h
      · right
        intro hrt
        exact hnotin (hrt ▸ new_rows_tickers r h)
  · intro table d t tickers ht hone
    apply mem_toFetch ht
    rw [show fullyFetched table d t
        = ((todaySources table d t).dedup.length == 2) from rfl, hone]
    rfl

/-- Witness for C1's amended statement: the one-source table puts `AAPL`
into the fetch list. -/
theorem C1_per_ticker_coverage_witness :
    "AAPL" ∈ tickersToFetch oneSourceTable 1 ["AAPL"] :=
  C1_per_ticker_coverage.2 oneSourceTable 1 "AAPL" ["AAPL"]
    (by simp) (by decide)

/-! ## The wide pivot -/

theorem le_foldl_max :
    ∀ (l : List ℕ) (a x : ℕ), x ∈ l → x ≤ l.foldl Nat.max a := by
  intro l
  induction l with
  | nil => intro a x hx; simp at hx
  | cons b l ih =>
    intro a x hx
    rcases List.mem_cons.mp hx with rfl | hx2
    · calc x ≤ Nat.max a x := Nat.le_max_right a x
        _ ≤ l.foldl Nat.max (Nat.max a x) := init_le_foldl_max l _
    · exact ih (Nat.max a b) x hx2
where
  init_le_foldl_max : ∀ (l : List ℕ) (a : ℕ), a ≤ l.foldl Nat.max a := by
    intro l
    induction l with
    | nil => intro a; exact Nat.le_refl a
    | cons b l ih =>
      intro a
      calc a ≤ Nat.max a b := Nat.le_max_left a b
        _ ≤ l.foldl Nat.max (Nat.max a b) := ih _

theorem foldl_max_mem :
    ∀ (l : List ℕ) (a : ℕ), l.foldl Nat.max a = a ∨ l.foldl Nat.max a ∈ l := by
  intro l
  induction l with
  | nil => intro a; exact Or.inl rfl
  | cons b l ih =>
    intro a
    rcases ih (Nat.max a b) with h | h
    · rw [List.foldl_cons, h]
      by_cases hab : a ≤ b
      · exact Or.inr (by
          rw [show a.max b = b from Nat.max_eq_right hab]
          simp)
      · exact Or.inl (Nat.max_eq_left (Nat.le_of_not_le hab))
    · exact Or.inr (List.mem_cons.mpr (Or.inr (by rw [List.foldl_cons]; exact h)))

theorem latestDate_ge {full : List TidyRow} {r : TidyRow} (hr : r ∈ full) :
    r.Fetch_Date ≤ latestDate full := by
  unfold latestDate
  exact le_foldl_max _ 0 _ (List.mem_map.mpr ⟨r, hr, rfl⟩)

theorem latestDate_mem {full : List TidyRow} (h : full ≠ []) :
    ∃ r ∈ full, r.Fetch_Date = latestDate full := by
  rcases foldl_max_mem (full.map (fun r => r.Fetch_Date)) 0 with hz | hm
  · rcases full with _ | ⟨r0, rest⟩
    · exact absurd rfl h
    · refine ⟨r0, by simp, ?_⟩
      have hle : r0.Fetch_Date ≤ latestDate (r0 :: rest) :=
        latestDate_ge (by simp)
      unfold latestDate at hz hle ⊢
      omega
  · obtain ⟨r, hr, hrd⟩ := List.mem_map.mp hm
    exact ⟨r, hr, hrd⟩

theorem latestRows_iff {full : List TidyRow} {r : TidyRow} :
    r ∈ latestRows full ↔ r ∈ full ∧ r.Fetch_Date = latestDate full := by
  unfold latestRows
  rw [List.mem_filter]
  simp [beq_iff_eq]

/-! ## Claim C8 -/

/-- C8 counterexample: after a successful run on an empty table, the
`(AAPL, stockanalysis)` wide row exists and `Market Cap` is one of the
pivot's columns, yet that cell is empty (`none`, a NaN cell in pandas) —
not the claimed `"N/A"` — because no `fill_value` is passed to
`pivot_table`. -/
theorem C8_missing_cell_counterexample :
    ("AAPL", "stockanalysis")
        ∈ widePairs (latestRows (crawl_magnificent7 envBoth tmId ["AAPL"] [] 1).full)
      ∧ "Market Cap"
        ∈ wideCols (latestRows (crawl_magnificent7 envBoth tmId ["AAPL"] [] 1).full)
      ∧ wideCell (latestRows (crawl_magnificent7 envBoth tmId ["AAPL"] [] 1).full)
          "AAPL" "stockanalysis" "Market Cap" = Option.none
      ∧ (Option.none : Option (List Char)) ≠ Option.some "N/A".toList := by
  refine ⟨?_, ?_, ?_, by simp⟩
  · have h : widePairs (latestRows (crawl_magnificent7 envBoth tmId ["AAPL"] [] 1).full)
        = [("AAPL", "yahoo_finance"), ("AAPL", "stockanalysis")] := by
      with_unfolding_all rfl
    rw [h]
    simp
  · have h : wideCols (latestRows (crawl_magnificent7 envBoth tmId ["AAPL"] [] 1).full)
        = ["Market Cap", "Enterprise Value", "Trailing P/E", "Forward P/E",
           "PEG Ratio (5yr expected)", "Price/Sales (ttm)", "Price/Book (mrq)",
           "Enterprise Value/Revenue", "Enterprise Value/EBITDA",
           "PE Ratio", "Forward PE", "PS Ratio", "PB Ratio", "PEG Ratio"] := by
      with_unfolding_all rfl
    rw [h]
    simp
  · with_unfolding_all rfl

/-- C8 as amended: the wide table, when one is written, is built from
exactly the rows of the combined table whose `Fetch_Date` equals its
maximum date, with one row per distinct `(Ticker, Data_Source)` pair and
one column per distinct canonical metric; on duplicate
`(ticker, source, metric)` rows the first occurrence wins; and a
pair/metric combination with no underlying row yields an EMPTY cell
(pandas NaN), not `"N/A"` — `"N/A"` cells come from the formatter, which
wrote that literal into `Value_Formatted`. -/
theorem C8_wide_projection :
    (∀ env tm (tickers : List String) (table : List TidyRow) d ld rows,
      (crawl_magnificent7 env tm tickers table d).wide = Option.some (ld, rows) →
      ld = latestDate (crawl_magnificent7 env tm tickers table d).full
        ∧ rows = latestRows (crawl_magnificent7 env tm tickers table d).full)
  ∧ (∀ (full : List TidyRow) (r : TidyRow),
      r ∈ latestRows full ↔ r ∈ full ∧ r.Fetch_Date = latestDate full)
  ∧ (∀ (full : List TidyRow) (r : TidyRow), r ∈ full →
      r.Fetch_Date ≤ latestDate full)
  ∧ (∀ (rows : List TidyRow), (widePairs rows).Nodup
      ∧ ∀ ts : String × String, ts ∈ widePairs rows ↔
          ∃ r ∈ rows, r.Ticker = ts.1 ∧ r.Data_Source = ts.2)
  ∧ (∀ (rows pre post : List TidyRow) (r : TidyRow) (t s m : String),
      rows = pre ++ r :: post →
      (r.Ticker == t && r.Data_Source == s && r.Measure == m) = true →
      (∀ r2 ∈ pre,
        (r2.Ticker == t && r2.Data_Source == s && r2.Measure == m) = false) →
      wideCell rows t s m = Option.some r.Value_Formatted)
  ∧ (∀ (rows : List TidyRow) (t s m : String),
      (∀ r ∈ rows, ¬(r.Ticker = t ∧ r.Data_Source = s ∧ r.Measure = m)) →
      wideCell rows t s m = Option.none) := by
  refine ⟨?_, fun full r => latestRows_iff, fun full r => latestDate_ge, ?_, ?_, ?_⟩
  · intro env tm tickers table d ld rows hw
    by_cases htf : tickersToFetch table d tickers = []
    · rw [crawl_noop _ _ _ _ _ htf] at hw
      simp at hw
    · rw [crawl_run _ _ _ _ _ htf] at hw ⊢
      simp only [Option.some.injEq, Prod.mk.injEq] at hw
      exact ⟨hw.1.symm, hw.2.symm⟩
  · intro rows
    refine ⟨List.nodup_dedup _, ?_⟩
    rintro ⟨t1, s1⟩
    unfold widePairs
    rw [List.mem_dedup, List.mem_map]
    constructor
    · rintro ⟨r, hr, heq⟩
      rw [Prod.mk.injEq] at heq
      exact ⟨r, hr, heq.1, heq.2⟩
    · rintro ⟨r, hr, h1, h2⟩
      exact ⟨r, hr, by rw [h1, h2]⟩
  · intro rows pre post r t s m hrows hr hpre
    subst hrows
    unfold wideCell
    induction pre with
    | nil =>
      rw [List.nil_append, List.find?_cons_of_pos
        (p := fun r2 => r2.Ticker == t && r2.Data_Source == s && r2.Measure == m)
        post hr]
      rfl
    | cons a l ih =>
      rw [List.cons_append, List.find?_cons_of_neg
        (p := fun r2 => r2.Ticker == t && r2.Data_Source == s && r2.Measure == m)
        (l ++ r :: post) (by simp only [hpre a (by simp)]; simp)]
      exact ih (fun r2 h2 => hpre r2 (by simp [h2]))
  · intro rows t s m h
    unfold wideCell
    rw [List.find?_eq_none.mpr (fun r hr => by
      simp only [Bool.and_eq_true, beq_iff_eq]
      intro hc
      exact h r hr ⟨hc.1.1, hc.1.2, hc.2⟩)]
    rfl

/-- Witness for C8: on the one-row table the cell of that row's key is its
formatted value, by the first-occurrence rule with an empty earlier
segment. -/
theorem C8_wide_projection_witness :
    (mcRow.Ticker == "AAPL" && mcRow.Data_Source == "yahoo_finance"
        && mcRow.Measure == "Market Cap") = true
      ∧ wideCell oneSourceTable "AAPL" "yahoo_finance" "Market Cap"
          = Option.some mcRow.Value_Formatted :=
  ⟨by decide,
    C8_wide_projection.2.2.2.2.1 oneSourceTable [] [] mcRow "AAPL" "yahoo_finance"
      "Market Cap" rfl (by decide) (by simp)⟩

/-! ## Claim C5 -/

/-- C5 counterexample: with a conversion table mapping Yahoo's raw label
`Market Cap` to the canonical name `MC`, the Yahoo row builder still
applies the magnitude formatter (it tests the RAW label, line 291), while
the claimed canonical-name test would have produced the plain 2-decimal
form. -/
theorem C5_monetary_check_counterexample :
    (tmMC.yahoo "Market Cap").getD "Market Cap" = "MC"
  ∧ (yahooRow tmMC 1 "AAPL" ("Market Cap", Option.some (2 * 10 ^ 12))).Value_Formatted
      = "2.00T".toList
  ∧ specFormattedByCanonical ((tmMC.yahoo "Market Cap").getD "Market Cap")
      (Option.some (2 * 10 ^ 12)) = "2000000000000.00".toList
  ∧ (yahooRow tmMC 1 "AAPL" ("Market Cap", Option.some (2 * 10 ^ 12))).Value_Formatted
      ≠ specFormattedByCanonical ((tmMC.yahoo "Market Cap").getD "Market Cap")
          (Option.some (2 * 10 ^ 12)) := by
  have h1 : (yahooRow tmMC 1 "AAPL"
      ("Market Cap", Option.some (2 * 10 ^ 12))).Value_Formatted = "2.00T".toList := by
    with_unfolding_all rfl
  have h2 : specFormattedByCanonical ((tmMC.yahoo "Market Cap").getD "Market Cap")
      (Option.some (2 * 10 ^ 12)) = "2000000000000.00".toList := by
    with_unfolding_all rfl
  exact ⟨rfl, h1, h2, by rw [h1, h2]; decide⟩

/-- C5 as amended: the StockAnalysis branch chooses the formatter by
testing the CANONICAL name, but the Yahoo branch tests the RAW label; the
two coincide exactly when the term map carries the raw label into the
monetary set if and only if the raw label is already in it. -/
theorem C5_monetary_check :
    (∀ tm d t (p : String × Option ℚ),
      (saRow tm d t p).Value_Formatted
        = specFormattedByCanonical ((tm.sa p.1).getD p.1) p.2)
  ∧ (∀ tm d t (p : String × Option ℚ),
      (yahooRow tm d t p).Value_Formatted = specFormattedByCanonical p.1 p.2)
  ∧ (∀ tm d t (p : String × Option ℚ),
      ((p.1 = "Market Cap" ∨ p.1 = "Enterprise Value") ↔
        ((tm.yahoo p.1).getD p.1 = "Market Cap"
          ∨ (tm.yahoo p.1).getD p.1 = "Enterprise Value")) →
      (yahooRow tm d t p).Value_Formatted
        = specFormattedByCanonical ((tm.yahoo p.1).getD p.1) p.2) := by
  refine ⟨fun tm d t p => rfl, fun tm d t p => rfl, ?_⟩
  intro tm d t p hiff
  show (if p.1 = "Market Cap" ∨ p.1 = "Enterprise Value" then
      format_large_number (pyOfOpt p.2) else yahooRow.plain2 p.2) = _
  unfold specFormattedByCanonical
  by_cases h : p.1 = "Market Cap" ∨ p.1 = "Enterprise Value"
  · rw [if_pos h, if_pos (hiff.mp h)]
  · rw [if_neg h, if_neg (fun hc => h (hiff.mpr hc))]

/-- Witness for C5 under the identity term map, where the two tests
coincide. -/
theorem C5_monetary_check_witness :
    (yahooRow tmId 1 "AAPL" ("Market Cap", Option.some (2 * 10 ^ 12))).Value_Formatted
      = specFormattedByCanonical ((tmId.yahoo "Market Cap").getD "Market Cap")
          (Option.some (2 * 10 ^ 12)) :=
  C5_monetary_check.2.2 tmId 1 "AAPL" ("Market Cap", Option.some (2 * 10 ^ 12)) Iff.rfl

/-! ## The line scanner, per label -/

theorem lookupM_setKey_self {m : List (String × Option ℚ)} {k : String} (v : ℚ)
    (hk : k ∈ m.map Prod.fst) : lookupM (setKey m k v) k = Option.some v := by
  induction m with
  | nil => simp at hk
  | cons q ps ih =>
    rw [show setKey (q :: ps) k v
        = (if q.1 = k then (q.1, Option.some v) else q) :: setKey ps k v from rfl]
    by_cases h : q.1 = k
    · unfold lookupM
      rw [if_pos h,
        List.find?_cons_of_pos (p := fun x : String × Option ℚ => x.1 == k) _ (by simp [h])]
    · unfold lookupM
      rw [if_neg h,
        List.find?_cons_of_neg (p := fun x : String × Option ℚ => x.1 == k) _ (by simp [h])]
      have hk2 : k ∈ ps.map Prod.fst := by
        rcases List.mem_map.mp hk with ⟨q2, hq2, rfl⟩
        rcases List.mem_cons.mp hq2 with rfl | hq3
        · exact absurd rfl h
        · exact List.mem_map.mpr ⟨q2, hq3, rfl⟩
      exact ih hk2

theorem lookupM_setKey_ne {m : List (String × Option ℚ)} {k k2 : String} (v : ℚ)
    (hne : k2 ≠ k) : lookupM (setKey m k v) k2 = lookupM m k2 := by
  induction m with
  | nil => rfl
  | cons q ps ih =>
    rw [show setKey (q :: ps) k v
        = (if q.1 = k then (q.1, Option.some v) else q) :: setKey ps k v from rfl]
    by_cases h2 : q.1 = k
    · have hq2 : ¬q.1 = k2 := by
        rw [h2]
        exact Ne.symm hne
      unfold lookupM
      rw [if_pos h2,
        List.find?_cons_of_neg (p := fun x : String × Option ℚ => x.1 == k2)
          _ (by simp [hq2]),
        List.find?_cons_of_neg (p := fun x : String × Option ℚ => x.1 == k2)
          _ (by simp [hq2])]
      exact ih
    · by_cases h : q.1 = k2
      · unfold lookupM
        rw [if_neg h2,
          List.find?_cons_of_pos (p := fun x : String × Option ℚ => x.1 == k2) _ (by simp [h]),
          List.find?_cons_of_pos (p := fun x : String × Option ℚ => x.1 == k2) _ (by simp [h])]
      · unfold lookupM
        rw [if_neg h2,
          List.find?_cons_of_neg (p := fun x : String × Option ℚ => x.1 == k2) _ (by simp [h]),
          List.find?_cons_of_neg (p := fun x : String × Option ℚ => x.1 == k2) _ (by simp [h])]
        exact ih

theorem lookupM_trySet_self {m : List (String × Option ℚ)} {k : String}
    {tok : List Char} (hk : k ∈ m.map Prod.fst) :
    lookupM (scanLine.trySet m k tok) k
      = match M7.pyFloatL tok with
        | Option.some v => Option.some v
        | Option.none => lookupM m k := by
  unfold scanLine.trySet
  cases M7.pyFloatL tok with
  | none => rfl
  | some v => exact lookupM_setKey_self v hk

theorem lookupM_trySet_ne {m : List (String × Option ℚ)} {k k2 : String}
    {tok : List Char} (hne : k2 ≠ k) :
    lookupM (scanLine.trySet m k tok) k2 = lookupM m k2 := by
  unfold scanLine.trySet
  cases M7.pyFloatL tok with
  | none => rfl
  | some v => exact lookupM_setKey_ne v hne

theorem startsWithL_compat :
    ∀ (cs p1 p2 : List Char), M7.startsWithL p1 cs = true →
      M7.startsWithL p2 cs = true →
      M7.startsWithL p1 p2 = true ∨ M7.startsWithL p2 p1 = true := by
  intro cs
  induction cs with
  | nil =>
    intro p1 p2 h1 h2
    cases p1 with
    | nil => exact Or.inl rfl
    | cons a l => simp [M7.startsWithL] at h1
  | cons c cs ih =>
    intro p1 p2 h1 h2
    cases p1 with
    | nil => exact Or.inl rfl
    | cons a1 l1 =>
      cases p2 with
      | nil => exact Or.inr rfl
      | cons a2 l2 =>
        simp only [M7.startsWithL, Bool.and_eq_true, beq_iff_eq] at h1 h2
        rcases ih l1 l2 h1.2 h2.2 with h | h
        · exact Or.inl (by
            simp only [M7.startsWithL, Bool.and_eq_true, beq_iff_eq]
            exact ⟨h1.1.trans h2.1.symm, h⟩)
        · exact Or.inr (by
            simp only [M7.startsWithL, Bool.and_eq_true, beq_iff_eq]
            exact ⟨h2.1.trans h1.1.symm, h⟩)

theorem lineCond_excl {lab1 lab2 : String}
    (h12 : M7.startsWithL (lab1.toList ++ [' ']) (lab2.toList ++ [' ']) = false)
    (h21 : M7.startsWithL (lab2.toList ++ [' ']) (lab1.toList ++ [' ']) = false)
    {ls : List Char} {parts : List (List Char)}
    (hc : lineCond lab1 ls parts = true) : ¬lineCond lab2 ls parts = true := by
  intro hc2
  unfold lineCond at hc hc2
  rw [Bool.and_eq_true] at hc hc2
  rcases startsWithL_compat ls _ _ hc.1 hc2.1 with h | h
  · rw [h12] at h
    cases h
  · rw [h21] at h
    cases h

/-! ## Claim C3 -/

/-- C3 counterexample: the line `"PE  Ratio 45.49"` (two spaces) satisfies
the spec's token condition — three tokens, the first two reconstructing
`"PE Ratio"`, a numeric third — yet the scanner leaves the metric absent,
because the code's test is `startswith('PE Ratio ')` on the raw stripped
line, which a double space defeats. -/
theorem C3_token_match_counterexample :
    specLineMatch "PE Ratio" "PE  Ratio 45.49".toList
      ∧ lookupM (scanLine saInit "PE  Ratio 45.49".toList) "PE Ratio" = Option.none
      ∧ lookupM saInit "PE Ratio" = Option.none := by
  refine ⟨⟨by decide, by decide, by with_unfolding_all rfl⟩, ?_, rfl⟩
  with_unfolding_all rfl

set_option maxHeartbeats 1000000 in
/-- C3 as amended: a line sets a metric exactly when the STRIPPED LINE
STARTS WITH the label followed by a single space, the whitespace-split has
exactly three tokens, and the third parses as a float (in which case the
parsed value is stored); any other line leaves that metric as it was,
silently. -/
theorem C3_line_scan (m : List (String × Option ℚ)) (line : List Char)
    (lab : String) (hm : m.map Prod.fst = saLabels) (hlab : lab ∈ saLabels) :
    lookupM (scanLine m line) lab =
      match (if lineCond lab (M7.pyStrip line) (M7.pyWords (M7.pyStrip line)) then
          M7.pyFloatL ((M7.pyWords (M7.pyStrip line)).getD 2 []) else Option.none) with
      | Option.some v => Option.some v
      | Option.none => lookupM m lab := by
  have hmem : ∀ k : String, k ∈ saLabels → k ∈ m.map Prod.fst := by
    intro k hk
    rw [hm]
    exact hk
  simp only [saLabels, saInit, List.map_cons, List.map_nil, List.mem_cons,
    List.not_mem_nil, or_false] at hlab
  rcases hlab with rfl | rfl | rfl | rfl | rfl
  · by_cases hc : lineCond "PE Ratio" (M7.pyStrip line)
        (M7.pyWords (M7.pyStrip line)) = true
    · rw [if_pos hc]
      simp only [scanLine]
      rw [if_pos hc]
      exact lookupM_trySet_self (hmem _ (by decide))
    · rw [if_neg hc]
      simp only [scanLine]
      split_ifs
      all_goals first
        | (exact absurd (by assumption) hc)
        | (apply lookupM_trySet_ne; decide)
        | rfl
  · by_cases hc : lineCond "Forward PE" (M7.pyStrip line)
        (M7.pyWords (M7.pyStrip line)) = true
    · rw [if_pos hc]
      simp only [scanLine]
      rw [if_neg (lineCond_excl (by decide) (by decide) hc), if_pos hc]
      exact lookupM_trySet_self (hmem _ (by decide))
    · rw [if_neg hc]
      simp only [scanLine]
      split_ifs
      all_goals first
        | (exact absurd (by assumption) hc)
        | (apply lookupM_trySet_ne; decide)
        | rfl
  · by_cases hc : lineCond "PS Ratio" (M7.pyStrip line)
        (M7.pyWords (M7.pyStrip line)) = true
    · rw [if_pos hc]
      simp only [scanLine]
      rw [if_neg (lineCond_excl (by decide) (by decide) hc),
        if_neg (lineCond_excl (by decide) (by decide) hc), if_pos hc]
      exact lookupM_trySet_self (hmem _ (by decide))
    · rw [if_neg hc]
      simp only [scanLine]
      split_ifs
      all_goals first
        | (exact absurd (by assumption) hc)
        | (apply lookupM_trySet_ne; decide)
        | rfl
  · by_cases hc : lineCond "PB Ratio" (M7.pyStrip line)
        (M7.pyWords (M7.pyStrip line)) = true
    · rw [if_pos hc]
      simp only [scanLine]
      rw [if_neg (lineCond_excl (by decide) (by decide) hc),
        if_neg (lineCond_excl (by decide) (by decide) hc),
        if_neg (lineCond_excl (by decide) (by decide) hc), if_pos hc]
      exact lookupM_trySet_self (hmem _ (by decide))
    · rw [if_neg hc]
      simp only [scanLine]
      split_ifs
      all_goals first
        | (exact absurd (by assumption) hc)
        | (apply lookupM_trySet_ne; decide)
        | rfl
  · by_cases hc : lineCond "PEG Ratio" (M7.pyStrip line)
        (M7.pyWords (M7.pyStrip line)) = true
    · rw [if_pos hc]
      simp only [scanLine]
      rw [if_neg (lineCond_excl (by decide) (by decide) hc),
        if_neg (lineCond_excl (by decide) (by decide) hc),
        if_neg (lineCond_excl (by decide) (by decide) hc),
        if_neg (lineCond_excl (by decide) (by decide) hc), if_pos hc]
      exact lookupM_trySet_self (hmem _ (by decide))
    · rw [if_neg hc]
      simp only [scanLine]
      split_ifs
      all_goals first
        | (exact absurd (by assumption) hc)
        | (apply lookupM_trySet_ne; decide)
        | rfl

/-- Witness for C3: the well-formed line `"PE Ratio 45.49"` stores
`45.49`. -/
theorem C3_line_scan_witness :
    lookupM (scanLine saInit "PE Ratio 45.49".toList) "PE Ratio"
      = Option.some (4549 / 100 : ℚ) := by
  rw [C3_line_scan saInit "PE Ratio 45.49".toList "PE Ratio" rfl (by decide)]
  with_unfolding_all rfl

end Src
